import Mathlib

/-!
# Verification of the godb predicate-composition engine and execution glue

Shallow embedding of the Go sources:
* `condition.go` — `Q`, `And`, `Or`, `Not`, `sumOfConditionsLengths`,
  `joinSQL`, `joinArgs` over a `Condition` record;
* `raw_sql.go` — the error policy of `RawSQL.Do`;
* `godb.go` — `Clone`, `ConsumedTime`, `ResetConsumedTime`, `addConsumedTime`.

Go strings are modelled as `List Char`; Go `interface{}` arguments given to
`Q` are modelled by the inductive `Arg` (a Go `nil`, a scalar, or a slice of
opaque values drawn from a type parameter).  A Go slice index out of range
(a panic) is modelled by `Option.none` as result of `Q`.
-/

namespace Godb

/-- `String.data` shortens writing Go string literals as `List Char`. -/
def str (s : String) : List Char :=
  s.data

/-- `const Placeholder string = "?"` from godb.go (a one-character string,
modelled as the character). -/
def Placeholder : Char := '?'

/-- An argument passed to `Q` through Go's `...interface{}`: the untyped
`nil`, a scalar value, or a slice of values. -/
inductive Arg (α : Type) where
  | nil : Arg α
  | scalar : α → Arg α
  | slice : List α → Arg α
  deriving DecidableEq, Repr

/-- The error values `Q` can store in a condition, each carrying the `sql`
fragment interpolated into the Go error message. -/
inductive CondErr where
  | wrongNumberOfArgs : List Char → CondErr
  | nilArgument : List Char → CondErr
  | emptySlice : List Char → CondErr
  deriving DecidableEq, Repr

/-- The `Condition` struct of condition.go: an error, a SQL fragment and the
positional arguments. -/
structure Condition (α : Type) where
  err : Option CondErr
  sql : List Char
  args : List α
  deriving DecidableEq, Repr

/-- `Condition.Err` accessor (method `Err()` in condition.go). -/
def Condition.Err (c : Condition α) : Option CondErr :=
  c.err

/-- `strings.Count(sql, Placeholder)` for the one-character placeholder:
the number of placeholder characters in the string. -/
def countPlaceholder : List Char → Nat
  | [] => 0
  | c :: rest => (if c = Placeholder then 1 else 0) + countPlaceholder rest

/-- `strings.Index(remainingSQL, Placeholder)` for the one-character
placeholder: the index of the first occurrence, or `none` (Go: `-1`). -/
def indexOfPlaceholder : List Char → Option Nat
  | [] => Option.none
  | c :: rest =>
      if c = Placeholder then some 0
      else (indexOfPlaceholder rest).map (· + 1)

/-- The expansion `Placeholder + strings.Repeat(","+Placeholder, length-1)`
written by `Q` for a slice argument of the given length. -/
def slicePlaceholders (length : Nat) : List Char :=
  Placeholder :: (List.replicate (length - 1) [',', Placeholder]).flatten

/-- The `for _, arg := range args` loop of `Q` (condition.go lines 38–66).
State threaded through the loop: the remaining SQL, the output buffer and
the accumulated argument list.  Go panics when `strings.Index` returns `-1`
and the slice bound `placeholderPos` is used; this is the `Option.none`
result. -/
def qLoop (origSql : List Char) :
    List (Arg α) → List Char → List Char → List α → Option (Condition α)
  | [], remainingSQL, buffer, args =>
      some { err := Option.none, sql := buffer ++ remainingSQL, args := args }
  | Arg.nil :: _, _, _, args =>
      some { err := some (CondErr.nilArgument origSql), sql := [], args := args }
  | arg :: rest, remainingSQL, buffer, args =>
      match indexOfPlaceholder remainingSQL with
      | Option.none => Option.none
      | some placeholderPos =>
          let buffer2 := buffer ++ remainingSQL.take placeholderPos
          let remaining2 := remainingSQL.drop (placeholderPos + 1)
          match arg with
          | Arg.slice l =>
              if l.length = 0 then
                some { err := some (CondErr.emptySlice origSql), sql := [], args := args }
              else
                qLoop origSql rest remaining2
                  (buffer2 ++ slicePlaceholders l.length) (args ++ l)
          | Arg.scalar a =>
              qLoop origSql rest remaining2 (buffer2 ++ [Placeholder]) (args ++ [a])
          | Arg.nil =>
              some { err := some (CondErr.nilArgument origSql), sql := [], args := args }

/-- `Q` from condition.go: checks the placeholder count against the number
of arguments, then runs the scanning loop starting from the full SQL, an
empty buffer and no accumulated arguments. -/
def Q (sql : List Char) (args : List (Arg α)) : Option (Condition α) :=
  if countPlaceholder sql ≠ args.length then
    some { err := some (CondErr.wrongNumberOfArgs sql), sql := [], args := [] }
  else
    qLoop sql args sql [] []

/-- `sumOfConditionsLengths` from condition.go: the summed SQL lengths, the
summed argument counts, and the first error found (on an error the sums are
dropped and `(0, 0, err)` is returned). -/
def sumOfConditionsLengths : List (Condition α) → Nat × Nat × Option CondErr
  | [] => (0, 0, Option.none)
  | c :: rest =>
      match c.err with
      | some e => (0, 0, some e)
      | Option.none =>
          match sumOfConditionsLengths rest with
          | (_, _, some e) => (0, 0, some e)
          | (sqlLength, argsLength, Option.none) =>
              (sqlLength + c.sql.length, argsLength + c.args.length, Option.none)

/-- The loop of `joinSQL` after the first condition has been written: each
further condition is preceded by the conjunction. -/
def joinSQLAux (conjunction : List Char) :
    List Char → List (Condition α) → List Char
  | buffer, [] => buffer
  | buffer, c :: rest => joinSQLAux conjunction (buffer ++ conjunction ++ c.sql) rest

/-- `joinSQL` from condition.go: writes each condition's SQL into the
buffer, inserting the conjunction between consecutive conditions (the
`firstCondition` flag suppresses it before the first one). -/
def joinSQL (buffer conjunction : List Char) (conditions : List (Condition α)) :
    List Char :=
  match conditions with
  | [] => buffer
  | c :: rest => joinSQLAux conjunction (buffer ++ c.sql) rest

/-- `joinArgs` from condition.go: appends every condition's arguments, in
order, to the given argument slice. -/
def joinArgs (args : List α) : List (Condition α) → List α
  | [] => args
  | c :: rest => joinArgs (args ++ c.args) rest

/-- `And` from condition.go: one condition is returned unchanged; otherwise
the first error poisons the result, and with no error the fragments are
joined with `" AND "` (no parentheses) and the arguments concatenated. -/
def And (conditions : List (Condition α)) : Condition α :=
  match conditions with
  | [c] => c
  | _ =>
      match (sumOfConditionsLengths conditions).2.2 with
      | some e => { err := some e, sql := [], args := [] }
      | Option.none =>
          { err := Option.none
            sql := joinSQL [] (str " AND ") conditions
            args := joinArgs [] conditions }

/-- `Or` from condition.go: one condition is returned unchanged; otherwise
the first error poisons the result, and with no error the fragments are
joined with `" OR "` and the whole is wrapped in parentheses. -/
def Or (conditions : List (Condition α)) : Condition α :=
  match conditions with
  | [c] => c
  | _ =>
      match (sumOfConditionsLengths conditions).2.2 with
      | some e => { err := some e, sql := [], args := [] }
      | Option.none =>
          { err := Option.none
            sql := joinSQL (str "(") (str " OR ") conditions ++ str ")"
            args := joinArgs [] conditions }

/-- `Not` from condition.go: a poisoned condition is returned unchanged;
otherwise the fragment is wrapped in `NOT (` … `)`, arguments kept. -/
def Not (condition : Condition α) : Condition α :=
  match condition.err with
  | some _ => condition
  | Option.none =>
      { err := Option.none
        sql := str "NOT (" ++ condition.sql ++ str ")"
        args := condition.args }

/-! ## Specification-side descriptions for the condition engine

The following definitions restate, in the spec's vocabulary, what the
condition engine is claimed to produce; the theorems below relate them to
the embedded source functions. -/

/-- Number of final positional arguments one input argument contributes:
a scalar counts once, a slice counts by its length. -/
def argSize : Arg α → Nat
  | Arg.nil => 0
  | Arg.scalar _ => 1
  | Arg.slice l => l.length

/-- Sum of `argSize` over an argument list. -/
def argsSize (args : List (Arg α)) : Nat :=
  (args.map argSize).sum

/-- The flattened argument list: scalars kept, slices spliced element by
element, in order. -/
def flattenArgs : List (Arg α) → List α
  | [] => []
  | Arg.nil :: rest => flattenArgs rest
  | Arg.scalar a :: rest => a :: flattenArgs rest
  | Arg.slice l :: rest => l ++ flattenArgs rest

/-- Fragments joined with a separator between consecutive ones (the spec's
"concatenated with the separator between them"). -/
def interFragments (separator : List Char) : List (List Char) → List Char
  | [] => []
  | [f] => f
  | f :: rest => f ++ separator ++ interFragments separator rest

/-- `n` placeholders joined by commas (the spec's description of the
expansion of a slice of length `n`). -/
def commaJoinedPlaceholders (n : Nat) : List Char :=
  interFragments [','] (List.replicate n [Placeholder])

/-- The spec's description of placeholder rewriting: each placeholder
occurrence consumes the next argument; a slice of length `n` is replaced by
`n` placeholders joined by commas, a scalar by a single placeholder. -/
def expandFragment : List Char → List (Arg α) → List Char
  | s, [] => s
  | s, arg :: rest =>
      match indexOfPlaceholder s with
      | Option.none => s
      | some pos =>
          s.take pos
            ++ (match arg with
                | Arg.slice l => commaJoinedPlaceholders l.length
                | _ => [Placeholder])
            ++ expandFragment (s.drop (pos + 1)) rest

/-- The error of the first poisoned condition in argument order. -/
def firstErr : List (Condition α) → Option CondErr
  | [] => Option.none
  | c :: rest =>
      match c.err with
      | some e => some e
      | Option.none => firstErr rest

/-! ## Embedding of godb.go (DB facade) -/

/-- The prepared-statement cache, as observable through the methods `Clone`
uses.  `id` models the allocation identity of a cache (two caches produced
by distinct allocations have distinct ids). -/
structure StmtCache where
  id : Nat
  size : Nat
  enabled : Bool
  deriving DecidableEq, Repr

/-- Modelled from the spec: the default capacity of a newly allocated
statement cache (stmtcache.go is not among the sources; the concrete value
is irrelevant to every claim below). -/
def defaultStmtCacheSize : Nat := 16

/-- Modelled from the spec: `newStmtCache` (stmtcache.go is not among the
sources) allocates a fresh, enabled statement cache with the default
capacity.  Freshness is modelled by drawing the identity from a counter
that is returned incremented. -/
def newStmtCache (nextId : Nat) : StmtCache × Nat :=
  ({ id := nextId, size := defaultStmtCacheSize, enabled := true }, nextId + 1)

/-- Modelled from the spec: `StmtCache.Disable` turns caching off. -/
def StmtCache.Disable (c : StmtCache) : StmtCache :=
  { c with enabled := false }

/-- Modelled from the spec: `StmtCache.SetSize` sets the capacity. -/
def StmtCache.SetSize (c : StmtCache) (s : Nat) : StmtCache :=
  { c with size := s }

/-- Modelled from the spec: `StmtCache.GetSize` reads the capacity. -/
def StmtCache.GetSize (c : StmtCache) : Nat :=
  c.size

/-- Modelled from the spec: `StmtCache.IsEnabled` reads the enabled flag. -/
def StmtCache.IsEnabled (c : StmtCache) : Bool :=
  c.enabled

/-- The `DB` struct of godb.go.  External handles (adapter, `sql.DB`,
`sql.Tx`, logger, table namer) are opaque and modelled by identities;
`consumedTime` is a `time.Duration` — a two's-complement `int64` count of
nanoseconds — modelled as an `Int` kept in `[-2^63, 2^63)` by wrapping
every addition through `wrapInt64` (Go's `+=` overflow semantics). -/
structure DB where
  adapter : Nat
  sqlDB : Nat
  sqlTx : Option Nat
  logger : Nat
  consumedTime : Int
  defaultTableNamer : Nat
  stmtCacheDB : StmtCache
  stmtCacheTx : StmtCache
  useErrorParser : Bool
  deriving DecidableEq, Repr

/-- `Clone` from godb.go (lines 78–102): copies the shared fields, drops
the transaction, zeroes the consumed time, allocates two fresh caches and
copies the originals' size and enabled flag onto them.  The embedding is
pure, so the original `db` value is unchanged by construction.  `nextId`
is the allocation counter for `newStmtCache`. -/
def Clone (db : DB) (nextId : Nat) : DB × Nat :=
  let (cacheDB, n1) := newStmtCache nextId
  let (cacheTx, n2) := newStmtCache n1
  let cacheDB := cacheDB.SetSize db.stmtCacheDB.GetSize
  let cacheDB := if db.stmtCacheDB.IsEnabled = false then cacheDB.Disable else cacheDB
  let cacheTx := cacheTx.SetSize db.stmtCacheTx.GetSize
  let cacheTx := if db.stmtCacheTx.IsEnabled = false then cacheTx.Disable else cacheTx
  ({ adapter := db.adapter
     sqlDB := db.sqlDB
     sqlTx := Option.none
     logger := db.logger
     consumedTime := 0
     defaultTableNamer := db.defaultTableNamer
     stmtCacheDB := cacheDB
     stmtCacheTx := cacheTx
     useErrorParser := db.useErrorParser }, n2)

/-- `2^63`, the sign bound of Go's `int64` (`time.Duration`). -/
def int64Bound : Int := 9223372036854775808

/-- Two's-complement reduction into `[-2^63, 2^63)`: the result of a Go
`int64` addition that may overflow. -/
def wrapInt64 (x : Int) : Int :=
  (x + int64Bound) % (2 * int64Bound) - int64Bound

/-- `ConsumedTime` from godb.go. -/
def ConsumedTime (db : DB) : Int :=
  db.consumedTime

/-- `ResetConsumedTime` from godb.go. -/
def ResetConsumedTime (db : DB) : DB :=
  { db with consumedTime := 0 }

/-- `addConsumedTime` from godb.go: `db.consumedTime += duration`, an
`int64` addition that wraps on overflow. -/
def addConsumedTime (db : DB) (duration : Int) : DB :=
  { db with consumedTime := wrapInt64 (db.consumedTime + duration) }

/-! ## Embedding of raw_sql.go (`RawSQL.Do` error policy) -/

/-- The part of a record description `Do` inspects: whether the target is a
collection (`isSlice`). -/
structure RecordInfo where
  isSlice : Bool
  deriving DecidableEq, Repr

/-- Errors observable through `Do`: the driver's no-rows sentinel
(`sql.ErrNoRows`), a record-description build error, or an opaque pipeline
(driver) error. -/
inductive SQLError where
  | errNoRows : SQLError
  | buildDescriptionError : SQLError
  | pipelineError : Nat → SQLError
  deriving DecidableEq, Repr

/-- Modelled from the spec: `doSelectOrWithReturning` (not among the
sources) scans each returned row, appending one element per row when the
target is a collection, and returns the filled collection, the row count
and any driver error; with no driver error the count is the number of
fetched rows and a collection target receives exactly those rows (zero
rows leave it empty). -/
def doSelectOrWithReturning (fetchedRows : List ρ) :
    List ρ × Nat × Option SQLError :=
  (fetchedRows, fetchedRows.length, Option.none)

/-- `RawSQL.Do` from raw_sql.go (lines 34–59), parameterized by the outcome
of `buildRecordDescription` and by the row count and error coming back from
the execution pipeline: a build error is returned as is, a pipeline error
is returned as is, and otherwise a single (non-slice) target with zero rows
yields `sql.ErrNoRows` while every other outcome yields no error. -/
def rawSQLDo (buildResult : Except SQLError RecordInfo)
    (pipelineResult : Nat × Option SQLError) : Option SQLError :=
  match buildResult with
  | Except.error e => some e
  | Except.ok recordInfo =>
      match pipelineResult with
      | (_, some e) => some e
      | (rowsCount, Option.none) =>
          if recordInfo.isSlice = false ∧ rowsCount = 0 then
            some SQLError.errNoRows
          else
            Option.none

/-- Concrete `DB` used to instantiate theorems with hypotheses. -/
def dbWitness : DB :=
  { adapter := 0
    sqlDB := 1
    sqlTx := some 2
    logger := 0
    consumedTime := 3
    defaultTableNamer := 0
    stmtCacheDB := { id := 0, size := 8, enabled := false }
    stmtCacheTx := { id := 1, size := 8, enabled := true }
    useErrorParser := false }

/-- Concrete `DB` whose consumed-time counter sits at the `int64`
maximum, about to overflow. -/
def dbMaxTimeW : DB :=
  { dbWitness with consumedTime := int64Bound - 1 }

/-- Concrete poisoned condition used to instantiate theorems. -/
def condPoisonedW : Condition Int :=
  { err := some (CondErr.nilArgument (str "a=?")), sql := [], args := [] }

/-- Concrete healthy condition used to instantiate theorems. -/
def condOkW : Condition Int :=
  { err := Option.none, sql := str "b=?", args := [2] }

/-! ## Helper lemmas -/

/-- A string holding `n + 1` placeholders has a first placeholder, and the
suffix after it holds `n` of them. -/
theorem indexOfPlaceholder_of_count (s : List Char) (n : Nat)
    (h : countPlaceholder s = n + 1) :
    ∃ pos, indexOfPlaceholder s = some pos ∧
      countPlaceholder (s.drop (pos + 1)) = n := by
  induction s generalizing n with
  | nil => simp [countPlaceholder] at h
  | cons c rest ih =>
      by_cases hc : c = Placeholder
      · refine ⟨0, by simp [indexOfPlaceholder, hc], ?_⟩
        have h' : countPlaceholder rest = n := by
          simp [countPlaceholder, hc] at h
          omega
        simpa using h'
      · have h' : countPlaceholder rest = n + 1 := by
          simpa [countPlaceholder, hc] using h
        obtain ⟨pos, hfind, hdrop⟩ := ih n h'
        exact ⟨pos + 1, by simp [indexOfPlaceholder, hc, hfind], by simpa using hdrop⟩

/-- The source expansion for a nonempty slice agrees with the spec's
"`n` placeholders joined by commas". -/
theorem slicePlaceholders_eq_commaJoined (n : Nat) :
    slicePlaceholders (n + 1) = commaJoinedPlaceholders (n + 1) := by
  induction n with
  | zero => rfl
  | succ k ih =>
      have h1 : slicePlaceholders (k + 1 + 1) =
          [Placeholder, ','] ++ slicePlaceholders (k + 1) := by
        simp [slicePlaceholders, List.replicate_succ]
      have h2 : commaJoinedPlaceholders (k + 1 + 1) =
          [Placeholder, ','] ++ commaJoinedPlaceholders (k + 1) := by
        simp [commaJoinedPlaceholders, List.replicate_succ, interFragments]
      rw [h1, h2, ih]

/-- The flattened argument list has exactly the summed size. -/
theorem flattenArgs_length {α : Type} (args : List (Arg α)) :
    (flattenArgs args).length = argsSize args := by
  induction args with
  | nil => rfl
  | cons arg rest ih =>
      cases arg with
      | nil => simpa [flattenArgs, argsSize, argSize] using ih
      | scalar a =>
          have h := ih
          simp [flattenArgs, argsSize, argSize] at h ⊢
          omega
      | slice l =>
          have h := ih
          simp [flattenArgs, argsSize, argSize] at h ⊢
          omega

/-- Full characterization of the scanning loop of `Q` on valid input: the
placeholder count matches the number of remaining arguments, no argument is
nil and no slice argument is empty.  The loop then succeeds, builds the
expanded fragment after the buffer and appends the flattened arguments. -/
theorem qLoop_eq_of_valid {α : Type} (origSql : List Char) (args : List (Arg α)) :
    ∀ (remainingSQL buffer : List Char) (acc : List α),
      countPlaceholder remainingSQL = args.length →
      Arg.nil ∉ args →
      (∀ l, Arg.slice l ∈ args → l ≠ []) →
      qLoop origSql args remainingSQL buffer acc =
        some { err := Option.none,
               sql := buffer ++ expandFragment remainingSQL args,
               args := acc ++ flattenArgs args } := by
  induction args with
  | nil =>
      intro remainingSQL buffer acc _ _ _
      simp [qLoop, expandFragment, flattenArgs]
  | cons arg rest ih =>
      intro remainingSQL buffer acc hcount hnil hslice
      have hcount' : countPlaceholder remainingSQL = rest.length + 1 := by
        simpa using hcount
      obtain ⟨pos, hfind, hdrop⟩ := indexOfPlaceholder_of_count _ _ hcount'
      cases arg with
      | nil => exact absurd (List.mem_cons_self _ _) hnil
      | scalar a =>
          have hstep : qLoop origSql (Arg.scalar a :: rest) remainingSQL buffer acc =
              qLoop origSql rest (remainingSQL.drop (pos + 1))
                (buffer ++ remainingSQL.take pos ++ [Placeholder]) (acc ++ [a]) := by
            simp [qLoop, hfind]
          rw [hstep, ih _ _ _ hdrop (fun hm => hnil (List.mem_cons_of_mem _ hm))
            (fun l hm => hslice l (List.mem_cons_of_mem _ hm))]
          simp [expandFragment, hfind, flattenArgs]
      | slice l =>
          have hl : l ≠ [] := hslice l (List.mem_cons_self _ _)
          have hlen : ¬ l.length = 0 := by simpa using hl
          have hstep : qLoop origSql (Arg.slice l :: rest) remainingSQL buffer acc =
              qLoop origSql rest (remainingSQL.drop (pos + 1))
                (buffer ++ remainingSQL.take pos ++ slicePlaceholders l.length)
                (acc ++ l) := by
            simp [qLoop, hfind, hlen]
          rw [hstep, ih _ _ _ hdrop (fun hm => hnil (List.mem_cons_of_mem _ hm))
            (fun l' hm => hslice l' (List.mem_cons_of_mem _ hm))]
          obtain ⟨m, hm⟩ : ∃ m, l.length = m + 1 :=
            ⟨l.length - 1, by omega⟩
          simp [expandFragment, hfind, flattenArgs, hm,
            slicePlaceholders_eq_commaJoined]

/-- The scanning loop never reaches the out-of-range branch when the
placeholder count of the remaining SQL matches the number of remaining
arguments, whatever the arguments are. -/
theorem qLoop_isSome {α : Type} (origSql : List Char) (args : List (Arg α)) :
    ∀ (remainingSQL buffer : List Char) (acc : List α),
      countPlaceholder remainingSQL = args.length →
      (qLoop origSql args remainingSQL buffer acc).isSome := by
  induction args with
  | nil => intro remainingSQL buffer acc _; simp [qLoop]
  | cons arg rest ih =>
      intro remainingSQL buffer acc hcount
      have hcount' : countPlaceholder remainingSQL = rest.length + 1 := by
        simpa using hcount
      obtain ⟨pos, hfind, hdrop⟩ := indexOfPlaceholder_of_count _ _ hcount'
      cases arg with
      | nil => simp [qLoop]
      | scalar a =>
          have hstep : qLoop origSql (Arg.scalar a :: rest) remainingSQL buffer acc =
              qLoop origSql rest (remainingSQL.drop (pos + 1))
                (buffer ++ remainingSQL.take pos ++ [Placeholder]) (acc ++ [a]) := by
            simp [qLoop, hfind]
          rw [hstep]
          exact ih _ _ _ hdrop
      | slice l =>
          by_cases hlen : l.length = 0
          · simp [qLoop, hfind, hlen]
          · have hstep : qLoop origSql (Arg.slice l :: rest) remainingSQL buffer acc =
                qLoop origSql rest (remainingSQL.drop (pos + 1))
                  (buffer ++ remainingSQL.take pos ++ slicePlaceholders l.length)
                  (acc ++ l) := by
              simp [qLoop, hfind, hlen]
            rw [hstep]
            exact ih _ _ _ hdrop

/-- When the placeholder count matches but the arguments contain a nil or
an empty slice, the loop stops with an error stored in the condition. -/
theorem qLoop_err_of_bad {α : Type} (origSql : List Char) (args : List (Arg α)) :
    ∀ (remainingSQL buffer : List Char) (acc : List α),
      countPlaceholder remainingSQL = args.length →
      (Arg.nil ∈ args ∨ ∃ l, Arg.slice l ∈ args ∧ l = []) →
      ∃ c, qLoop origSql args remainingSQL buffer acc = some c ∧
        c.err ≠ Option.none := by
  induction args with
  | nil =>
      intro remainingSQL buffer acc _ hbad
      rcases hbad with h | ⟨l, h, _⟩ <;> simp at h
  | cons arg rest ih =>
      intro remainingSQL buffer acc hcount hbad
      have hcount' : countPlaceholder remainingSQL = rest.length + 1 := by
        simpa using hcount
      obtain ⟨pos, hfind, hdrop⟩ := indexOfPlaceholder_of_count _ _ hcount'
      cases arg with
      | nil =>
          exact ⟨{ err := some (CondErr.nilArgument origSql), sql := [], args := acc },
            by simp [qLoop], by simp⟩
      | scalar a =>
          have hbad' : Arg.nil ∈ rest ∨ ∃ l, Arg.slice l ∈ rest ∧ l = [] := by
            rcases hbad with h | ⟨l, hl, hle⟩
            · exact Or.inl (by simpa using h)
            · exact Or.inr ⟨l, by simpa using hl, hle⟩
          have hstep : qLoop origSql (Arg.scalar a :: rest) remainingSQL buffer acc =
              qLoop origSql rest (remainingSQL.drop (pos + 1))
                (buffer ++ remainingSQL.take pos ++ [Placeholder]) (acc ++ [a]) := by
            simp [qLoop, hfind]
          rw [hstep]
          exact ih _ _ _ hdrop hbad'
      | slice l =>
          by_cases hlen : l.length = 0
          · exact ⟨{ err := some (CondErr.emptySlice origSql), sql := [], args := acc },
              by simp [qLoop, hfind, hlen], by simp⟩
          · have hbad' : Arg.nil ∈ rest ∨ ∃ l', Arg.slice l' ∈ rest ∧ l' = [] := by
              rcases hbad with h | ⟨l', hl', hle⟩
              · exact Or.inl (by simpa using h)
              · rcases List.mem_cons.mp hl' with heq | hmem
                · have hll : l' = l := Arg.slice.inj heq
                  have hl0 : l = [] := by rw [← hll]; exact hle
                  exact absurd (by simp [hl0]) hlen
                · exact Or.inr ⟨l', hmem, hle⟩
            have hstep : qLoop origSql (Arg.slice l :: rest) remainingSQL buffer acc =
                qLoop origSql rest (remainingSQL.drop (pos + 1))
                  (buffer ++ remainingSQL.take pos ++ slicePlaceholders l.length)
                  (acc ++ l) := by
              simp [qLoop, hfind, hlen]
            rw [hstep]
            exact ih _ _ _ hdrop hbad'

/-- The error component of `sumOfConditionsLengths` is the error of the
first poisoned condition. -/
theorem sumOfConditionsLengths_err {α : Type} (conditions : List (Condition α)) :
    (sumOfConditionsLengths conditions).2.2 = firstErr conditions := by
  induction conditions with
  | nil => rfl
  | cons c rest ih =>
      cases hc : c.err with
      | some e => simp [sumOfConditionsLengths, firstErr, hc]
      | none =>
          rcases hr : sumOfConditionsLengths rest with ⟨s, a, e⟩
          rw [hr] at ih
          cases e with
          | some e' => simp [sumOfConditionsLengths, firstErr, hc, hr, ← ih]
          | none => simp [sumOfConditionsLengths, firstErr, hc, hr, ← ih]

/-- With no poisoned condition, `firstErr` is `none`. -/
theorem firstErr_eq_none {α : Type} (conditions : List (Condition α))
    (h : ∀ c ∈ conditions, c.err = Option.none) :
    firstErr conditions = Option.none := by
  induction conditions with
  | nil => rfl
  | cons c rest ih =>
      have hc : c.err = Option.none := h c (List.mem_cons_self _ _)
      simp [firstErr, hc]
      exact ih (fun c' hc' => h c' (List.mem_cons_of_mem _ hc'))

/-- With some poisoned condition, `firstErr` is not `none`. -/
theorem firstErr_ne_none {α : Type} (conditions : List (Condition α))
    (h : ∃ c ∈ conditions, c.err ≠ Option.none) :
    firstErr conditions ≠ Option.none := by
  induction conditions with
  | nil => simp at h
  | cons c rest ih =>
      cases hc : c.err with
      | some e => simp [firstErr, hc]
      | none =>
          rcases h with ⟨c', hmem, herr⟩
          rcases List.mem_cons.mp hmem with heq | hmem'
          · exact absurd (heq ▸ hc) herr
          · simpa [firstErr, hc] using ih ⟨c', hmem', herr⟩

/-- The tail loop of `joinSQL` appends one conjunction-prefixed fragment
per condition. -/
theorem joinSQLAux_eq {α : Type} (conjunction : List Char)
    (conditions : List (Condition α)) :
    ∀ buffer, joinSQLAux conjunction buffer conditions =
      buffer ++ (conditions.map (fun c => conjunction ++ c.sql)).flatten := by
  induction conditions with
  | nil => intro buffer; simp [joinSQLAux]
  | cons c rest ih => intro buffer; simp [joinSQLAux, ih]

/-- `interFragments` unfolded on a leading fragment. -/
theorem interFragments_cons (separator f : List Char) (fs : List (List Char)) :
    interFragments separator (f :: fs) =
      f ++ (fs.map (fun g => separator ++ g)).flatten := by
  induction fs generalizing f with
  | nil => simp [interFragments]
  | cons g rest ih =>
      rw [show interFragments separator (f :: g :: rest) =
        f ++ separator ++ interFragments separator (g :: rest) from rfl, ih g]
      simp

/-- `joinSQL` produces the buffer followed by the fragments joined with the
conjunction between consecutive ones. -/
theorem joinSQL_eq {α : Type} (buffer conjunction : List Char)
    (conditions : List (Condition α)) :
    joinSQL buffer conjunction conditions =
      buffer ++ interFragments conjunction (conditions.map Condition.sql) := by
  cases conditions with
  | nil => simp [joinSQL, interFragments]
  | cons c rest =>
      rw [show joinSQL buffer conjunction (c :: rest) =
        joinSQLAux conjunction (buffer ++ c.sql) rest from rfl]
      rw [joinSQLAux_eq, List.map_cons, interFragments_cons]
      simp only [List.append_assoc, List.append_cancel_left_eq, List.map_map]
      rfl

/-- `joinArgs` appends the concatenation of all argument lists. -/
theorem joinArgs_eq {α : Type} (conditions : List (Condition α)) :
    ∀ args, joinArgs args conditions =
      args ++ (conditions.map Condition.args).flatten := by
  induction conditions with
  | nil => intro args; simp [joinArgs]
  | cons c rest ih => intro args; simp [joinArgs, ih]

/-- Within the `int64` range the two's-complement reduction is the
identity: an addition that does not overflow behaves like unbounded
addition. -/
theorem wrapInt64_eq_self (x : Int) (h1 : -int64Bound ≤ x)
    (h2 : x < int64Bound) : wrapInt64 x = x := by
  have h3 : 0 ≤ x + int64Bound := by omega
  have h4 : x + int64Bound < 2 * int64Bound := by omega
  rw [wrapInt64, Int.emod_eq_of_lt h3 h4]
  omega

/-! ## Claim theorems -/

/-- C1: for a SQL fragment with exactly as many placeholders as there are
arguments, none nil and no empty slice, `Q` returns a non-poisoned
condition whose argument list is the flattened input — its length is the
sum of 1 per scalar and of the slice length per slice — and whose fragment
replaces each placeholder matched to a slice of length N by N placeholders
joined by commas (`expandFragment`); in particular
`Q("x = ? AND y IN (?)", 5, []int{1,2,3})` yields fragment
`"x = ? AND y IN (?,?,?)"` and arguments `[5,1,2,3]`. -/
theorem spec_C1 {α : Type} (sql : List Char) (args : List (Arg α))
    (hcount : countPlaceholder sql = args.length)
    (hnil : Arg.nil ∉ args)
    (hslice : ∀ l, Arg.slice l ∈ args → l ≠ []) :
    (∃ c, Q sql args = some c ∧ c.Err = Option.none ∧
        c.args.length = argsSize args ∧
        c.args = flattenArgs args ∧
        c.sql = expandFragment sql args) ∧
      Q (α := Int) (str "x = ? AND y IN (?)") [Arg.scalar 5, Arg.slice [1, 2, 3]] =
        some { err := Option.none, sql := str "x = ? AND y IN (?,?,?)",
               args := [5, 1, 2, 3] } := by
  constructor
  · have hq : Q sql args =
        some { err := Option.none,
               sql := [] ++ expandFragment sql args,
               args := [] ++ flattenArgs args } := by
      rw [Q, if_neg (by simp [hcount])]
      exact qLoop_eq_of_valid sql args sql [] [] hcount hnil hslice
    refine ⟨_, hq, rfl, ?_, by simp, by simp⟩
    simp [flattenArgs_length]
  · decide

/-- Witness for C1, instantiated at `Q("a=? AND b IN (?)", 7, []int{8,9})`. -/
theorem spec_C1_witness :
    (∃ c, Q (str "a=? AND b IN (?)") [Arg.scalar (7 : Int), Arg.slice [8, 9]] =
          some c ∧ c.Err = Option.none ∧
        c.args.length = argsSize [Arg.scalar (7 : Int), Arg.slice [8, 9]] ∧
        c.args = flattenArgs [Arg.scalar (7 : Int), Arg.slice [8, 9]] ∧
        c.sql = expandFragment (str "a=? AND b IN (?)")
          [Arg.scalar (7 : Int), Arg.slice [8, 9]]) ∧
      Q (α := Int) (str "x = ? AND y IN (?)") [Arg.scalar 5, Arg.slice [1, 2, 3]] =
        some { err := Option.none, sql := str "x = ? AND y IN (?,?,?)",
               args := [5, 1, 2, 3] } :=
  spec_C1 (str "a=? AND b IN (?)") [Arg.scalar (7 : Int), Arg.slice [8, 9]]
    (by decide) (by decide) (by intro l hl; simp at hl; simp [hl])

/-- C2: a placeholder-count mismatch, a nil argument or an empty-slice
argument makes `Q` return a poisoned condition — the error is stored as
data in the returned value, never raised as control flow; in particular
`Q("a=?", nil)` and `Q("a=?", []int{})` both carry a non-nil `Err`. -/
theorem spec_C2 {α : Type} :
    (∀ (sql : List Char) (args : List (Arg α)),
        (countPlaceholder sql ≠ args.length ∨ Arg.nil ∈ args ∨
            ∃ l, Arg.slice l ∈ args ∧ l = []) →
        ∃ c, Q sql args = some c ∧ c.Err ≠ Option.none) ∧
      Q (α := Int) (str "a=?") [Arg.nil] =
        some { err := some (CondErr.nilArgument (str "a=?")), sql := [],
               args := [] } ∧
      Q (α := Int) (str "a=?") [Arg.slice []] =
        some { err := some (CondErr.emptySlice (str "a=?")), sql := [],
               args := [] } := by
  refine ⟨?_, by decide, by decide⟩
  intro sql args hbad
  by_cases hc : countPlaceholder sql = args.length
  · have hbad' : Arg.nil ∈ args ∨ ∃ l, Arg.slice l ∈ args ∧ l = [] := by
      rcases hbad with h | h | h
      · exact absurd hc h
      · exact Or.inl h
      · exact Or.inr h
    obtain ⟨c, hc', herr⟩ := qLoop_err_of_bad sql args sql [] [] hc hbad'
    refine ⟨c, ?_, herr⟩
    rw [Q, if_neg (by simp [hc])]
    exact hc'
  · exact ⟨{ err := some (CondErr.wrongNumberOfArgs sql), sql := [], args := [] },
      by rw [Q, if_pos hc], by simp [Condition.Err]⟩

/-- Witness for C2, instantiated at `Q("a=?", nil)`. -/
theorem spec_C2_witness :
    ∃ c, Q (str "a=?") [(Arg.nil : Arg Int)] = some c ∧ c.Err ≠ Option.none :=
  spec_C2.1 (str "a=?") [Arg.nil] (Or.inr (Or.inl (by simp)))

/-- C3: for `And` and `Or` over two or more conditions of which at least
one is poisoned, the result's `Err` is the error of the first poisoned
input in argument order (`firstErr`) and the result carries no built-up
SQL and no arguments; `Not` returns a poisoned input unchanged. -/
theorem spec_C3 {α : Type} :
    (∀ conditions : List (Condition α), 2 ≤ conditions.length →
        (∃ c ∈ conditions, c.err ≠ Option.none) →
        (And conditions).Err = firstErr conditions ∧
        (And conditions).sql = [] ∧ (And conditions).args = [] ∧
        (Or conditions).Err = firstErr conditions ∧
        (Or conditions).sql = [] ∧ (Or conditions).args = []) ∧
      ∀ c : Condition α, c.Err ≠ Option.none → Not c = c := by
  constructor
  · intro conditions hlen hpois
    obtain ⟨e, he⟩ : ∃ e, firstErr conditions = some e := by
      cases hf : firstErr conditions with
      | some e => exact ⟨e, rfl⟩
      | none => exact absurd hf (firstErr_ne_none conditions hpois)
    match conditions, hlen, he with
    | a :: b :: rest, _, he =>
        have hsum : (sumOfConditionsLengths (a :: b :: rest)).2.2 = some e := by
          rw [sumOfConditionsLengths_err]; exact he
        have hAnd : And (a :: b :: rest) =
            { err := some e, sql := [], args := [] } := by
          rw [show And (a :: b :: rest) =
            (match (sumOfConditionsLengths (a :: b :: rest)).2.2 with
             | some e => ({ err := some e, sql := [], args := [] } : Condition α)
             | Option.none =>
                 { err := Option.none,
                   sql := joinSQL [] (str " AND ") (a :: b :: rest),
                   args := joinArgs [] (a :: b :: rest) }) from rfl, hsum]
        have hOr : Or (a :: b :: rest) =
            { err := some e, sql := [], args := [] } := by
          rw [show Or (a :: b :: rest) =
            (match (sumOfConditionsLengths (a :: b :: rest)).2.2 with
             | some e => ({ err := some e, sql := [], args := [] } : Condition α)
             | Option.none =>
                 { err := Option.none,
                   sql := joinSQL (str "(") (str " OR ") (a :: b :: rest) ++ str ")",
                   args := joinArgs [] (a :: b :: rest) }) from rfl, hsum]
        rw [hAnd, hOr, he]
        simp [Condition.Err]
  · intro c hc
    cases h : c.err with
    | some e => simp [Not, h]
    | none => exact absurd (by simpa [Condition.Err] using h) hc

/-- Witness for C3, instantiated at a pair with a poisoned first input. -/
theorem spec_C3_witness :
    (And [condPoisonedW, condOkW]).Err = firstErr [condPoisonedW, condOkW] ∧
    (And [condPoisonedW, condOkW]).sql = [] ∧
    (And [condPoisonedW, condOkW]).args = [] ∧
    (Or [condPoisonedW, condOkW]).Err = firstErr [condPoisonedW, condOkW] ∧
    (Or [condPoisonedW, condOkW]).sql = [] ∧
    (Or [condPoisonedW, condOkW]).args = [] :=
  spec_C3.1 [condPoisonedW, condOkW] (by decide)
    ⟨condPoisonedW, by simp, by simp [condPoisonedW]⟩

/-- C4: for `And`/`Or` over two or more non-poisoned conditions, the
fragment is the input fragments joined in argument order with `" AND "`
(resp. `" OR "`) between them, `Or` wrapping the whole in parentheses while
`And` does not, and the argument list is the inputs' argument lists
concatenated in the same order. -/
theorem spec_C4 {α : Type} (conditions : List (Condition α))
    (hlen : 2 ≤ conditions.length)
    (hok : ∀ c ∈ conditions, c.err = Option.none) :
    (And conditions).Err = Option.none ∧
    (And conditions).sql =
      interFragments (str " AND ") (conditions.map Condition.sql) ∧
    (And conditions).args = (conditions.map Condition.args).flatten ∧
    (Or conditions).Err = Option.none ∧
    (Or conditions).sql =
      str "(" ++ interFragments (str " OR ") (conditions.map Condition.sql)
        ++ str ")" ∧
    (Or conditions).args = (conditions.map Condition.args).flatten := by
  have hsum : (sumOfConditionsLengths conditions).2.2 = Option.none := by
    rw [sumOfConditionsLengths_err]
    exact firstErr_eq_none conditions hok
  match conditions, hlen, hsum with
  | a :: b :: rest, _, hsum =>
      have hAnd : And (a :: b :: rest) =
          { err := Option.none,
            sql := joinSQL [] (str " AND ") (a :: b :: rest),
            args := joinArgs [] (a :: b :: rest) } := by
        rw [show And (a :: b :: rest) =
          (match (sumOfConditionsLengths (a :: b :: rest)).2.2 with
           | some e => ({ err := some e, sql := [], args := [] } : Condition α)
           | Option.none =>
               { err := Option.none,
                 sql := joinSQL [] (str " AND ") (a :: b :: rest),
                 args := joinArgs [] (a :: b :: rest) }) from rfl, hsum]
      have hOr : Or (a :: b :: rest) =
          { err := Option.none,
            sql := joinSQL (str "(") (str " OR ") (a :: b :: rest) ++ str ")",
            args := joinArgs [] (a :: b :: rest) } := by
        rw [show Or (a :: b :: rest) =
          (match (sumOfConditionsLengths (a :: b :: rest)).2.2 with
           | some e => ({ err := some e, sql := [], args := [] } : Condition α)
           | Option.none =>
               { err := Option.none,
                 sql := joinSQL (str "(") (str " OR ") (a :: b :: rest) ++ str ")",
                 args := joinArgs [] (a :: b :: rest) }) from rfl, hsum]
      rw [hAnd, hOr]
      refine ⟨rfl, ?_, ?_, rfl, ?_, ?_⟩
      · simpa using joinSQL_eq [] (str " AND ") (a :: b :: rest)
      · simpa using joinArgs_eq (a :: b :: rest) []
      · rw [joinSQL_eq (str "(") (str " OR ") (a :: b :: rest)]
      · simpa using joinArgs_eq (a :: b :: rest) []

/-- Witness for C4 at the spec's concrete pair of conditions. -/
theorem spec_C4_witness :
    (And [condOkW, condOkW]).Err = Option.none ∧
    (And [condOkW, condOkW]).sql =
      interFragments (str " AND ") ([condOkW, condOkW].map Condition.sql) ∧
    (And [condOkW, condOkW]).args = ([condOkW, condOkW].map Condition.args).flatten ∧
    (Or [condOkW, condOkW]).Err = Option.none ∧
    (Or [condOkW, condOkW]).sql =
      str "(" ++ interFragments (str " OR ") ([condOkW, condOkW].map Condition.sql)
        ++ str ")" ∧
    (Or [condOkW, condOkW]).args = ([condOkW, condOkW].map Condition.args).flatten :=
  spec_C4 [condOkW, condOkW] (by decide)
    (by intro c hc; simp at hc; simp [hc, condOkW])

/-- C5: `And` and `Or` applied to exactly one condition return that very
condition unchanged — same fragment, same argument list, same error. -/
theorem spec_C5 {α : Type} (c : Condition α) :
    And [c] = c ∧ Or [c] = c :=
  ⟨rfl, rfl⟩

/-- Witness for C5 at a concrete condition. -/
theorem spec_C5_witness : And [condOkW] = condOkW ∧ Or [condOkW] = condOkW :=
  spec_C5 condOkW

/-- C6: `Not` of a non-poisoned condition is non-poisoned, wraps the
fragment in `NOT (` … `)` and keeps the argument list unchanged. -/
theorem spec_C6 {α : Type} (c : Condition α) (h : c.Err = Option.none) :
    (Not c).Err = Option.none ∧
    (Not c).sql = str "NOT (" ++ c.sql ++ str ")" ∧
    (Not c).args = c.args := by
  have hc : c.err = Option.none := h
  simp [Not, hc, Condition.Err]

/-- Witness for C6 at the spec's concrete condition (`Not(Q("a=?",1))`). -/
theorem spec_C6_witness :
    (Not condOkW).Err = Option.none ∧
    (Not condOkW).sql = str "NOT (" ++ condOkW.sql ++ str ")" ∧
    (Not condOkW).args = condOkW.args :=
  spec_C6 condOkW (by decide)

/-- C10: when the placeholder count of the fragment equals the number of
arguments, the scanning loop of `Q` always finds a next placeholder, so the
out-of-range branch (`Option.none`, the Go slicing panic) is unreachable
and `Q` returns a condition. -/
theorem spec_C10 {α : Type} (sql : List Char) (args : List (Arg α))
    (hcount : countPlaceholder sql = args.length) :
    (Q sql args).isSome := by
  rw [Q, if_neg (by simp [hcount])]
  exact qLoop_isSome sql args sql [] [] hcount

/-- Witness for C10 at a concrete fragment with a slice argument. -/
theorem spec_C10_witness :
    (Q (str "x = ? AND y IN (?)") [Arg.scalar (5 : Int), Arg.slice [1, 2, 3]]).isSome :=
  spec_C10 (str "x = ? AND y IN (?)") [Arg.scalar (5 : Int), Arg.slice [1, 2, 3]]
    (by decide)

/-- C7: when `Do`'s target is a single (non-collection) value and the
pipeline reports zero rows with no error, `Do` returns the driver's
no-rows sentinel (`sql.ErrNoRows`); when the target is a collection, zero
rows yield a nil error, and the spec-modelled pipeline leaves the
collection empty. -/
theorem spec_C7 :
    (∀ recordInfo : RecordInfo, recordInfo.isSlice = false →
        rawSQLDo (Except.ok recordInfo)
            (doSelectOrWithReturning ([] : List Unit)).2 =
          some SQLError.errNoRows) ∧
    (∀ recordInfo : RecordInfo, recordInfo.isSlice = true →
        rawSQLDo (Except.ok recordInfo)
            (doSelectOrWithReturning ([] : List Unit)).2 =
          Option.none) ∧
    (doSelectOrWithReturning ([] : List Unit)).1 = [] := by
  refine ⟨?_, ?_, rfl⟩
  · intro recordInfo h
    simp [rawSQLDo, doSelectOrWithReturning, h]
  · intro recordInfo h
    simp [rawSQLDo, doSelectOrWithReturning, h]

/-- Witness for C7 at the two concrete record shapes. -/
theorem spec_C7_witness :
    rawSQLDo (Except.ok { isSlice := false })
        (doSelectOrWithReturning ([] : List Unit)).2 =
      some SQLError.errNoRows ∧
    rawSQLDo (Except.ok { isSlice := true })
        (doSelectOrWithReturning ([] : List Unit)).2 =
      Option.none :=
  ⟨spec_C7.1 { isSlice := false } rfl, spec_C7.2.1 { isSlice := true } rfl⟩

/-- C8: `Clone` returns a `DB` sharing the underlying `sql.DB` handle, with
no active transaction, a zero consumed-time counter, and a fresh pair of
statement caches whose identities differ from both of the original's caches
and from each other; the embedding is pure, so the original value is
untouched by construction. -/
theorem spec_C8 (db : DB) (nextId : Nat)
    (h1 : db.stmtCacheDB.id < nextId) (h2 : db.stmtCacheTx.id < nextId) :
    (Clone db nextId).1.sqlDB = db.sqlDB ∧
    (Clone db nextId).1.sqlTx = Option.none ∧
    (Clone db nextId).1.consumedTime = 0 ∧
    (Clone db nextId).1.stmtCacheDB.id ≠ db.stmtCacheDB.id ∧
    (Clone db nextId).1.stmtCacheDB.id ≠ db.stmtCacheTx.id ∧
    (Clone db nextId).1.stmtCacheTx.id ≠ db.stmtCacheDB.id ∧
    (Clone db nextId).1.stmtCacheTx.id ≠ db.stmtCacheTx.id ∧
    (Clone db nextId).1.stmtCacheDB.id ≠ (Clone db nextId).1.stmtCacheTx.id := by
  have hdbid : (Clone db nextId).1.stmtCacheDB.id = nextId := by
    simp [Clone, newStmtCache, StmtCache.SetSize, StmtCache.Disable,
      StmtCache.GetSize, StmtCache.IsEnabled, apply_ite (StmtCache.id)]
  have htxid : (Clone db nextId).1.stmtCacheTx.id = nextId + 1 := by
    simp [Clone, newStmtCache, StmtCache.SetSize, StmtCache.Disable,
      StmtCache.GetSize, StmtCache.IsEnabled, apply_ite (StmtCache.id)]
  refine ⟨rfl, rfl, rfl, ?_, ?_, ?_, ?_, ?_⟩ <;> simp only [hdbid, htxid] <;> omega

/-- Witness for C8 at a concrete `DB` and a fresh counter. -/
theorem spec_C8_witness :
    (Clone dbWitness 5).1.sqlDB = dbWitness.sqlDB ∧
    (Clone dbWitness 5).1.sqlTx = Option.none ∧
    (Clone dbWitness 5).1.consumedTime = 0 ∧
    (Clone dbWitness 5).1.stmtCacheDB.id ≠ dbWitness.stmtCacheDB.id ∧
    (Clone dbWitness 5).1.stmtCacheDB.id ≠ dbWitness.stmtCacheTx.id ∧
    (Clone dbWitness 5).1.stmtCacheTx.id ≠ dbWitness.stmtCacheDB.id ∧
    (Clone dbWitness 5).1.stmtCacheTx.id ≠ dbWitness.stmtCacheTx.id ∧
    (Clone dbWitness 5).1.stmtCacheDB.id ≠ (Clone dbWitness 5).1.stmtCacheTx.id :=
  spec_C8 dbWitness 5 (by decide) (by decide)

/-- Counterexample to C9 as stated: `consumedTime` is a Go `int64` and its
addition wraps, so adding the non-negative duration `1` to a counter at the
`int64` maximum makes the counter strictly decrease — it is not
monotonically non-decreasing without a no-overflow bound. -/
theorem spec_C9_counterexample :
    0 ≤ (1 : Int) ∧
    ConsumedTime (addConsumedTime dbMaxTimeW 1) < ConsumedTime dbMaxTimeW := by
  constructor
  · decide
  · show ConsumedTime (addConsumedTime dbMaxTimeW 1) < ConsumedTime dbMaxTimeW
    norm_num [ConsumedTime, addConsumedTime, dbMaxTimeW, dbWitness, wrapInt64,
      int64Bound]

/-- C9 (amended for `int64` wrapping): starting from a non-negative counter
and adding non-negative durations whose total keeps the counter below
`2^63` (no `int64` overflow), the consumed-time counter is monotonically
non-decreasing; under the same bound a non-negative addition never brings a
positive counter back to zero, while `ResetConsumedTime` sets it to exactly
zero. -/
theorem spec_C9 :
    (∀ (db : DB) (durations : List Int),
        0 ≤ ConsumedTime db →
        (∀ d ∈ durations, 0 ≤ d) →
        ConsumedTime db + durations.sum < int64Bound →
        ConsumedTime db ≤ ConsumedTime (durations.foldl addConsumedTime db)) ∧
    (∀ (db : DB) (d : Int), 0 ≤ d → 0 < ConsumedTime db →
        ConsumedTime db + d < int64Bound →
        0 < ConsumedTime (addConsumedTime db d)) ∧
    (∀ db : DB, ConsumedTime (ResetConsumedTime db) = 0) := by
  refine ⟨?_, ?_, fun db => rfl⟩
  · intro db durations hnn h hbound
    induction durations generalizing db with
    | nil => simp
    | cons d rest ih =>
        have hd : 0 ≤ d := h d (List.mem_cons_self _ _)
        have hrest : 0 ≤ rest.sum :=
          List.sum_nonneg (fun d' hd' => h d' (List.mem_cons_of_mem _ hd'))
        have hsum : db.consumedTime + (d + rest.sum) < int64Bound := by
          simpa [ConsumedTime, List.sum_cons] using hbound
        have hwrap : wrapInt64 (db.consumedTime + d) = db.consumedTime + d := by
          apply wrapInt64_eq_self
          · simp only [int64Bound]
            simp only [ConsumedTime] at hnn
            omega
          · simp only [int64Bound] at hsum ⊢
            omega
        have hstep : ConsumedTime db ≤ ConsumedTime (addConsumedTime db d) := by
          simp [ConsumedTime, addConsumedTime, hwrap]
          omega
        refine le_trans hstep ?_
        have hmain := ih (addConsumedTime db d)
          (by simp [ConsumedTime, addConsumedTime, hwrap]
              simp only [ConsumedTime] at hnn
              omega)
          (fun d' hd' => h d' (List.mem_cons_of_mem _ hd'))
          (by simp [ConsumedTime, addConsumedTime, hwrap] at hsum ⊢
              omega)
        simpa using hmain
  · intro db d hd hpos hbound
    have hwrap : wrapInt64 (db.consumedTime + d) = db.consumedTime + d := by
      apply wrapInt64_eq_self
      · simp only [ConsumedTime] at hpos
        simp only [int64Bound]
        omega
      · simp only [ConsumedTime] at hbound
        simp only [int64Bound] at hbound ⊢
        omega
    simp [ConsumedTime, addConsumedTime, hwrap] at hpos ⊢
    omega

/-- Witness for C9: two successive additions on the concrete `DB`. -/
theorem spec_C9_witness :
    ConsumedTime dbWitness ≤
      ConsumedTime ([(1 : Int), 2].foldl addConsumedTime dbWitness) :=
  spec_C9.1 dbWitness [1, 2] (by decide) (by decide) (by decide)

end Godb
